import Mathlib

/-!
Verification of the folly fatal-signal handler and guard-page stack allocator.

This development shallowly embeds the two C++ source files
(`folly/experimental/symbolizer/SignalHandler.cpp` and the fibers
`GuardPageAllocator.cpp`) into Lean.  Machine addresses are modelled as `Int`
(C pointer arithmetic on byte addresses), sizes as `Nat`.  `assert` statements
(compiled out under NDEBUG) are modelled as no-ops unless noted; glog `CHECK`
failures (which abort the process) are modelled as `Option.none`.
-/

set_option autoImplicit false

namespace Folly

namespace Fibers

/-- Number of guarded stacks per allocator instance (`kNumGuarded`). -/
def kNumGuarded : Nat := 100

/-- Maximum number of allocator instances with guarded stacks (`kMaxInUse`). -/
def kMaxInUse : Nat := 100

/-- `StackCache::allocSize(size)`: a multiple of the page size large enough to
store `size` plus one guard page; the C code computes
`pagesize() * ((size + pagesize() - 1) / pagesize() + 1)`.  The page size
`P` (`sysconf(_SC_PAGESIZE)`) is passed explicitly. -/
def allocSize (P size : Nat) : Nat :=
  P * ((size + P - 1) / P + 1)

/-- The `StackCache` class: the mmapped backing region starts at address
`storage` and has size `allocSize_ * kNumGuarded`; `freeList` is the
`std::vector` of free slot base addresses, in vector order (the back of the
vector is the last list element). -/
structure StackCache where
  pagesize : Nat
  storage : Int
  allocSize_ : Nat
  freeList : List Int
deriving Repr, DecidableEq

/-- The `StackCache(stackSize)` constructor: sets `allocSize_`, mmaps the
region and pushes the `kNumGuarded` slot base addresses
`storage_ + allocSize_ * i` for `i = 0, ..., kNumGuarded - 1` onto the free
list (protecting the bottom page of each slot, not modelled). -/
def StackCache.fresh (P : Nat) (storage : Int) (stackSize : Nat) : StackCache :=
  { pagesize := P
    storage := storage
    allocSize_ := allocSize P stackSize
    freeList := (List.range kNumGuarded).map
      (fun i => storage + (allocSize P stackSize : Int) * i) }

/-- `StackCache::borrow(size)`: if `allocSize(size)` differs from this cache's
class or the free list is empty, return `nullptr` (`none`); otherwise pop the
back of the free list and return `p + allocSize_ - size` together with the
updated cache. -/
def StackCache.borrow (c : StackCache) (size : Nat) : Option Int × StackCache :=
  if allocSize c.pagesize size ≠ c.allocSize_ then (none, c)
  else
    match c.freeList.getLast? with
    | none => (none, c)
    | some p =>
        (some (p + (c.allocSize_ : Int) - (size : Int)),
         { c with freeList := c.freeList.dropLast })

/-- `StackCache::giveBack(limit, size)`: recompute
`p = limit + size - allocSize(size)`; if `p` lies outside the backing region
return `false` ("not mine"), otherwise push `p` onto the free list and return
`true`.  The two `assert`s (`as == allocSize_` and slot alignment of `p`) are
compiled out under NDEBUG and are modelled as no-ops. -/
def StackCache.giveBack (c : StackCache) (limit : Int) (size : Nat) :
    Bool × StackCache :=
  let as := allocSize c.pagesize size
  let p : Int := limit + (size : Int) - (as : Int)
  if p < c.storage ∨ c.storage + (c.allocSize_ : Int) * (kNumGuarded : Int) ≤ p then
    (false, c)
  else
    (true, { c with freeList := c.freeList ++ [p] })

/-- A slot base address of a cache: `storage + allocSize_ * k` for some slot
index `k < kNumGuarded`. -/
def StackCache.IsSlotBase (c : StackCache) (p : Int) : Prop :=
  ∃ k : Nat, k < kNumGuarded ∧ p = c.storage + (c.allocSize_ : Int) * (k : Int)

/-- The `CacheManager` singleton: a counter of live `StackCache` pools. -/
structure CacheManager where
  inUse : Nat
deriving Repr, DecidableEq

/-- `CacheManager::getStackCache(stackSize)`: if `inUse_ < kMaxInUse`,
increment the counter and construct a new `StackCacheEntry` (success,
modelled as `true`); otherwise return `nullptr` (`false`). -/
def CacheManager.getStackCache (m : CacheManager) : Bool × CacheManager :=
  if m.inUse < kMaxInUse then (true, { inUse := m.inUse + 1 })
  else (false, m)

/-- `CacheManager::giveBack` (run by the `StackCacheEntry` destructor):
`assert(inUse_ > 0); --inUse_`.  The assert firing (releasing a handle that
does not exist) is modelled as `none`. -/
def CacheManager.giveBack (m : CacheManager) : Option CacheManager :=
  if m.inUse = 0 then none else some { inUse := m.inUse - 1 }

/-- A client-visible operation on the `CacheManager`: requesting a pool
handle, or destroying a previously obtained handle. -/
inductive MgrOp
  | get
  | release
deriving Repr, DecidableEq

/-- Run a sequence of manager operations; `none` when a release fires the
`assert(inUse_ > 0)`. -/
def CacheManager.runOps : List MgrOp → CacheManager → Option CacheManager
  | [], m => some m
  | MgrOp.get :: ops, m => CacheManager.runOps ops m.getStackCache.2
  | MgrOp.release :: ops, m =>
      match m.giveBack with
      | none => none
      | some m' => CacheManager.runOps ops m'

/-- An operation on one `StackCache` as exercised through the allocator
interface: a `borrow(size)` call, or a `giveBack` of the `i`-th currently
outstanding borrowed pointer (with the size it was borrowed at). -/
inductive CacheOp
  | borrowOp (size : Nat)
  | giveBackOp (i : Nat)
deriving Repr, DecidableEq

/-- A `StackCache` together with the ghost list of outstanding borrowed
pointers (each with the size passed to `borrow`). -/
structure CacheSys where
  cache : StackCache
  borrowed : List (Int × Nat)
deriving Repr, DecidableEq

/-- Apply one cache operation. A failed `borrow` changes nothing; a
`giveBackOp` with an out-of-range index changes nothing; a `giveBack`
rejected by the range check ("not mine") leaves the ghost list unchanged. -/
def CacheSys.applyOp (s : CacheSys) : CacheOp → CacheSys
  | CacheOp.borrowOp size =>
      match s.cache.borrow size with
      | (some p, c') => { cache := c', borrowed := s.borrowed ++ [(p, size)] }
      | (none, c') => { s with cache := c' }
  | CacheOp.giveBackOp i =>
      match s.borrowed.get? i with
      | none => s
      | some ls =>
          match s.cache.giveBack ls.1 ls.2 with
          | (true, c') => { cache := c', borrowed := s.borrowed.eraseIdx i }
          | (false, c') => { s with cache := c' }

/-- Run a sequence of cache operations. -/
def CacheSys.runOps (ops : List CacheOp) (s : CacheSys) : CacheSys :=
  ops.foldl CacheSys.applyOp s

/-- A fresh cache system: a just-constructed `StackCache`, nothing borrowed. -/
def CacheSys.init (P : Nat) (storage : Int) (stackSize : Nat) : CacheSys :=
  { cache := StackCache.fresh P storage stackSize, borrowed := [] }

/-- The externally claimed pool invariant: free-list size plus outstanding
borrow count equals the slot count, and every free-list address lies inside
the backing region and on a slot boundary. -/
def CacheSys.GoodState (s : CacheSys) : Prop :=
  s.cache.freeList.length + s.borrowed.length = kNumGuarded ∧
  ∀ p ∈ s.cache.freeList,
    (s.cache.storage ≤ p ∧
     p < s.cache.storage + (s.cache.allocSize_ : Int) * (kNumGuarded : Int)) ∧
    s.cache.IsSlotBase p

/-- The inductive invariant: positive page size and slot size, the count
equation, slot-aligned free-list entries, and for every outstanding borrow
the size-class match and the top-of-slot shape of the pointer. -/
def CacheSys.Inv (s : CacheSys) : Prop :=
  0 < s.cache.pagesize ∧
  0 < s.cache.allocSize_ ∧
  s.cache.freeList.length + s.borrowed.length = kNumGuarded ∧
  (∀ p ∈ s.cache.freeList, s.cache.IsSlotBase p) ∧
  (∀ ls ∈ s.borrowed,
      allocSize s.cache.pagesize ls.2 = s.cache.allocSize_ ∧
      ls.2 ≤ s.cache.allocSize_ ∧
      ∃ k : Nat, k < kNumGuarded ∧
        ls.1 = s.cache.storage + (s.cache.allocSize_ : Int) * (k : Int) +
               (s.cache.allocSize_ : Int) - (ls.2 : Int))

/-- Allocation result: a pointer from the guarded pool, or one from the
fallback allocator. -/
inductive AllocPtr
  | pool (p : Int)
  | fallback (size : Nat)
deriving Repr, DecidableEq

/-- The `GuardPageAllocator`: the `useGuardPages_` flag fixed at construction
and the at-most-one `StackCacheEntry` handle (holding its `StackCache`). -/
structure GuardPageAllocator where
  useGuardPages : Bool
  stackCache : Option StackCache
deriving Repr, DecidableEq

/-- Result of one `GuardPageAllocator::allocate(size)` call: the returned
pointer, the updated allocator and manager, and whether
`CacheManager::getStackCache` was invoked during the call. -/
structure AllocateResult where
  ptr : AllocPtr
  gpa : GuardPageAllocator
  mgr : CacheManager
  attempted : Bool
deriving Repr, DecidableEq

/-- The first statement of `GuardPageAllocator::allocate`:
`if (useGuardPages_ && !stackCache_) stackCache_ = CacheManager::instance().getStackCache(size);`
Returns the updated allocator and manager, and whether the manager was
consulted.  `newStorage` is the address `mmap` would give a newly
constructed pool. -/
def GuardPageAllocator.acquire (P : Nat) (newStorage : Int)
    (g : GuardPageAllocator) (m : CacheManager) (size : Nat) :
    GuardPageAllocator × CacheManager × Bool :=
  if g.useGuardPages = true ∧ g.stackCache = none then
    let r := m.getStackCache
    (if r.1 then { g with stackCache := some (StackCache.fresh P newStorage size) }
     else g,
     r.2, true)
  else (g, m, false)

/-- `GuardPageAllocator::allocate(size)`: lazily try to obtain a pool handle,
then try the pool's `borrow` first, falling back to the fallback allocator
when there is no pool or `borrow` returns `nullptr`. -/
def GuardPageAllocator.allocate (P : Nat) (newStorage : Int)
    (g : GuardPageAllocator) (m : CacheManager) (size : Nat) : AllocateResult :=
  let a := GuardPageAllocator.acquire P newStorage g m size
  match a.1.stackCache with
  | some c =>
      match c.borrow size with
      | (some p, c') =>
          { ptr := AllocPtr.pool p
            gpa := { a.1 with stackCache := some c' }
            mgr := a.2.1
            attempted := a.2.2 }
      | (none, c') =>
          { ptr := AllocPtr.fallback size
            gpa := { a.1 with stackCache := some c' }
            mgr := a.2.1
            attempted := a.2.2 }
  | none =>
      { ptr := AllocPtr.fallback size
        gpa := a.1
        mgr := a.2.1
        attempted := a.2.2 }

end Fibers

namespace Symbolizer

/-- The `FatalSignalCallbackRegistry`: the `installed_` flag and the ordered
vector of callbacks (callbacks are identified by `Nat` tokens; running one is
opaque). -/
structure FatalSignalCallbackRegistry where
  installed : Bool
  handlers : List Nat
deriving Repr, DecidableEq

/-- A freshly constructed registry: `installed_(false)`, no handlers. -/
def FatalSignalCallbackRegistry.initial : FatalSignalCallbackRegistry :=
  { installed := false, handlers := [] }

/-- `FatalSignalCallbackRegistry::add`: under `mutex_`,
`CHECK(!installed_)` (a failing `CHECK` aborts the process, modelled as
`none`), then `handlers_.push_back(func)`. -/
def FatalSignalCallbackRegistry.add (r : FatalSignalCallbackRegistry)
    (cb : Nat) : Option FatalSignalCallbackRegistry :=
  if r.installed then none
  else some { r with handlers := r.handlers ++ [cb] }

/-- `FatalSignalCallbackRegistry::markInstalled`: under `mutex_`,
`CHECK(!installed_.exchange(true))` — fatal (`none`) when already
installed, otherwise the flag becomes `true`. -/
def FatalSignalCallbackRegistry.markInstalled (r : FatalSignalCallbackRegistry) :
    Option FatalSignalCallbackRegistry :=
  if r.installed then none
  else some { r with installed := true }

/-- `FatalSignalCallbackRegistry::run`: if `!installed_` return immediately;
otherwise invoke every handler in vector order.  The result is the list of
callbacks executed, in execution order. -/
def FatalSignalCallbackRegistry.run (r : FatalSignalCallbackRegistry) :
    List Nat :=
  if r.installed then r.handlers else []

/-- A sequence of `addFatalSignalCallback` calls (each is
`gFatalSignalCallbackRegistry->add`); `none` as soon as one is fatal. -/
def FatalSignalCallbackRegistry.registerAll :
    List Nat → FatalSignalCallbackRegistry → Option FatalSignalCallbackRegistry
  | [], r => some r
  | cb :: cbs, r =>
      match r.add cb with
      | none => none
      | some r' => FatalSignalCallbackRegistry.registerAll cbs r'

/-- One entry of the `kFatalSignals` table (the saved `oldAction` field is
tracked separately as the `Disposition` of the signal number). -/
structure FatalSignalEntry where
  number : Nat
  name : String
deriving Repr, DecidableEq

/-- The `kFatalSignals` table with Linux signal numbers:
SIGSEGV = 11, SIGILL = 4, SIGFPE = 8, SIGABRT = 6, SIGBUS = 7, SIGTERM = 15
(the terminating null entry is represented by the end of the list). -/
def kFatalSignals : List FatalSignalEntry :=
  [⟨11, "SIGSEGV"⟩, ⟨4, "SIGILL"⟩, ⟨8, "SIGFPE"⟩,
   ⟨6, "SIGABRT"⟩, ⟨7, "SIGBUS"⟩, ⟨15, "SIGTERM"⟩]

/-- A signal disposition as installed by `sigaction`: either the previously
saved `oldAction` of a table entry, or `SIG_DFL`. -/
inductive Disposition
  | saved (signum : Nat)
  | defaultAction
deriving Repr, DecidableEq

/-- Externally visible actions taken by the tail of `signalHandler`. -/
inductive SigAction
  | releaseClaim
  | installDisposition (signum : Nat) (d : Disposition)
  | raiseSignal (signum : Nat)
deriving Repr, DecidableEq

/-- `callPreviousSignalHandler(signum)`: scan `kFatalSignals` for the entry
with this signal number; if found, `sigaction(signum, &p->oldAction)` then
`raise(signum)`; otherwise install `SIG_DFL` and `raise(signum)`. -/
def callPreviousSignalHandler (signum : Nat) : List SigAction :=
  match kFatalSignals.find? (fun p => p.number == signum) with
  | some p => [SigAction.installDisposition signum (Disposition.saved p.number),
               SigAction.raiseSignal signum]
  | none => [SigAction.installDisposition signum Disposition.defaultAction,
             SigAction.raiseSignal signum]

/-- The tail of `signalHandler` after `innerSignalHandler` returns:
`gSignalThread = kInvalidThreadId;` then `callPreviousSignalHandler(signum)`. -/
def signalHandlerCompletion (signum : Nat) : List SigAction :=
  SigAction.releaseClaim :: callPreviousSignalHandler signum

/-- Lines a single `dumpStackTrace` call can print. -/
inductive TraceItem
  | captureError
  | symbolizedFrames
  | safeModeLine
  | rawAddressFrames
  | recursionWarning
deriving Repr, DecidableEq

/-- `dumpStackTrace(symbolize)`: if `getStackTraceSafe` fails print
`(error retrieving stack trace)`; else if `symbolize` print the symbolized
frames; else print `(safe mode, symbolizer not available)` followed by the
raw frame addresses, one per line.  `captureOk` is whether
`getStackTraceSafe` succeeded. -/
def dumpStackTrace (captureOk symbolize : Bool) : List TraceItem :=
  if captureOk = false then [TraceItem.captureError]
  else if symbolize then [TraceItem.symbolizedFrames]
  else [TraceItem.safeModeLine, TraceItem.rawAddressFrames]

/-- State of the same-thread recursive-fault path: the
`gInRecursiveSignalHandler` flag and the lines printed by this path. -/
structure RecState where
  inRecursive : Bool
  out : List TraceItem
deriving Repr, DecidableEq

/-- The branch of `innerSignalHandler` taken when the failing
compare-exchange shows `prevSignalThread == myId` (a fault while this thread
already holds the dump claim): if `gInRecursiveSignalHandler.exchange(true)`
was already `true` do nothing; otherwise print the warning and
`dumpStackTrace(false)` (no symbolization).  `captureOk` is whether the
stack capture inside that dump succeeds. -/
def recursiveFault (s : RecState) (captureOk : Bool) : RecState :=
  if s.inRecursive then s
  else { inRecursive := true
         out := s.out ++ (TraceItem.recursionWarning :: dumpStackTrace captureOk false) }

/-- A sequence of same-thread recursive faults, each with its own capture
outcome. -/
def recRun (faults : List Bool) (s : RecState) : RecState :=
  faults.foldl recursiveFault s

/-- Lines of the crash report, tagged by content.  `callbacksRun cbs` stands
for the output of running the registered callbacks `cbs` (in order). -/
inductive Item
  | timestampLine
  | signalInfoLine (signum : Nat)
  | stackTrace (symbolized : Bool)
  | callbacksRun (cbs : List Nat)
  | recursionWarning
deriving Repr, DecidableEq

/-- Program counter of one thread executing `signalHandler` /
`innerSignalHandler`. -/
inductive PC
  | start
  | claiming
  | dumpTime
  | dumpInfo
  | dumpTrace
  | dumpCallbacks
  | release
  | reraise
  | done
deriving Repr, DecidableEq

/-- Global state of the process while several threads handle the same fatal
signal: the `gSignalThread` claim slot, the `gInRecursiveSignalHandler`
flag, the flushed output stream (each line tagged with the thread that wrote
it), each thread's program counter, and whether the re-raised signal has
terminated the process. -/
structure SigSys where
  sigThread : Option Nat
  inRecursive : Bool
  output : List (Nat × Item)
  pcs : Nat → PC
  terminated : Bool

/-- One atomic step of thread `tid`.  `start` models the fault delivery
(entering `signalHandler`); `claiming` is the `compare_exchange_strong` loop
head: it either wins the claim (slot unclaimed), takes the same-thread
recursive branch (slot held by itself; the inner handler then returns into
`signalHandler`'s tail, i.e. `release`), or sleeps 100ms and retries (no
state change).  The four dump stages each flush one section of the report.
`release` writes `kInvalidThreadId` back to `gSignalThread`; `reraise`
restores the saved disposition and re-raises, upon which the process
terminates.  After termination no thread steps. -/
def sigStep (reg : FatalSignalCallbackRegistry) (signum : Nat)
    (s : SigSys) (tid : Nat) : SigSys :=
  if s.terminated then s else
  match s.pcs tid with
  | PC.start => { s with pcs := Function.update s.pcs tid PC.claiming }
  | PC.claiming =>
      match s.sigThread with
      | none =>
          { s with sigThread := some tid
                   pcs := Function.update s.pcs tid PC.dumpTime }
      | some owner =>
          if owner = tid then
            if s.inRecursive then
              { s with pcs := Function.update s.pcs tid PC.release }
            else
              { s with inRecursive := true
                       output := s.output ++
                         [(tid, Item.recursionWarning), (tid, Item.stackTrace false)]
                       pcs := Function.update s.pcs tid PC.release }
          else s
  | PC.dumpTime =>
      { s with output := s.output ++ [(tid, Item.timestampLine)]
               pcs := Function.update s.pcs tid PC.dumpInfo }
  | PC.dumpInfo =>
      { s with output := s.output ++ [(tid, Item.signalInfoLine signum)]
               pcs := Function.update s.pcs tid PC.dumpTrace }
  | PC.dumpTrace =>
      { s with output := s.output ++ [(tid, Item.stackTrace true)]
               pcs := Function.update s.pcs tid PC.dumpCallbacks }
  | PC.dumpCallbacks =>
      { s with output := s.output ++ [(tid, Item.callbacksRun reg.run)]
               pcs := Function.update s.pcs tid PC.release }
  | PC.release =>
      { s with sigThread := none
               pcs := Function.update s.pcs tid PC.reraise }
  | PC.reraise =>
      { s with terminated := true
               pcs := Function.update s.pcs tid PC.done }
  | PC.done => s

/-- Initial state: no claim, flag clear, empty output, every thread about to
receive the signal. -/
def sigInit : SigSys :=
  { sigThread := none
    inRecursive := false
    output := []
    pcs := fun _ => PC.start
    terminated := false }

/-- Run a schedule (a list of thread ids, each performing its next atomic
step in turn). -/
def sigRun (reg : FatalSignalCallbackRegistry) (signum : Nat)
    (sched : List Nat) : SigSys :=
  sched.foldl (sigStep reg signum) sigInit

/-- The full report body of the winning thread `t`: timestamp line, signal
info line, symbolized stack trace, then the user callbacks. -/
def fullBody (reg : FatalSignalCallbackRegistry) (signum : Nat) (t : Nat) :
    List (Nat × Item) :=
  [(t, Item.timestampLine), (t, Item.signalInfoLine signum),
   (t, Item.stackTrace true), (t, Item.callbacksRun reg.run)]

/-- Concatenation of full report bodies for the given thread ids. -/
def bodiesConcat (reg : FatalSignalCallbackRegistry) (signum : Nat) :
    List Nat → List (Nat × Item)
  | [] => []
  | t :: ts => fullBody reg signum t ++ bodiesConcat reg signum ts

/-- The lines a thread at the given dump stage has already written of its
(current) report body. -/
def bodySoFar (reg : FatalSignalCallbackRegistry) (signum : Nat) (t : Nat) :
    PC → List (Nat × Item)
  | PC.dumpTime => []
  | PC.dumpInfo => [(t, Item.timestampLine)]
  | PC.dumpTrace => [(t, Item.timestampLine), (t, Item.signalInfoLine signum)]
  | PC.dumpCallbacks =>
      [(t, Item.timestampLine), (t, Item.signalInfoLine signum),
       (t, Item.stackTrace true)]
  | PC.release => fullBody reg signum t
  | _ => []

/-- Whether a thread at this program counter is inside the dump body
(holding the claim: from winning the compare-exchange up to, and including,
the store releasing `gSignalThread`). -/
def inDumpBody : PC → Bool
  | PC.dumpTime => true
  | PC.dumpInfo => true
  | PC.dumpTrace => true
  | PC.dumpCallbacks => true
  | PC.release => true
  | _ => false

/-- The output stream is a concatenation of complete report bodies, followed
by whatever the current claim holder (if any) has written of its body so
far.  In particular no two bodies interleave. -/
def outShape (reg : FatalSignalCallbackRegistry) (signum : Nat)
    (s : SigSys) : Prop :=
  ∃ ts : List Nat, s.output =
    bodiesConcat reg signum ts ++
      (match s.sigThread with
       | none => []
       | some t => bodySoFar reg signum t (s.pcs t))

/-- The system invariant: a thread is inside the dump body exactly when it
is the thread recorded in `gSignalThread`, and the output stream has the
non-interleaved shape. -/
def SigInv (reg : FatalSignalCallbackRegistry) (signum : Nat)
    (s : SigSys) : Prop :=
  (∀ t, inDumpBody (s.pcs t) = true → s.sigThread = some t) ∧
  (∀ t, s.sigThread = some t → inDumpBody (s.pcs t) = true) ∧
  outShape reg signum s

end Symbolizer

namespace Fibers

/-! ### Lemmas about `allocSize`, `borrow` and `giveBack` -/

/-- `allocSize P size` leaves at least one full page below the usable bytes. -/
theorem size_add_page_le_allocSize (P size : Nat) (hP : 0 < P) :
    size + P ≤ allocSize P size := by
  unfold allocSize
  have h1 := Nat.div_add_mod (size + P - 1) P
  have h2 := Nat.mod_lt (size + P - 1) hP
  rw [Nat.mul_add, Nat.mul_one]
  omega

/-- `borrow` returns `nullptr` exactly on size-class mismatch or empty free
list. -/
theorem borrow_none_iff (c : StackCache) (size : Nat) :
    (c.borrow size).1 = none ↔
      allocSize c.pagesize size ≠ c.allocSize_ ∨ c.freeList = [] := by
  unfold StackCache.borrow
  by_cases h : allocSize c.pagesize size ≠ c.allocSize_
  · simp [h]
  · rcases hl : c.freeList.getLast? with _ | p
    · simp [h, hl, List.getLast?_eq_none_iff.mp hl]
    · have hne : c.freeList ≠ [] := by
        intro he
        rw [he] at hl
        simp at hl
      simp [h, hl, hne]

/-- A successful `borrow` pops the back of the free list and returns
`p + allocSize_ - size`. -/
theorem borrow_last (c : StackCache) (size : Nat) (p : Int)
    (hmatch : allocSize c.pagesize size = c.allocSize_)
    (hlast : c.freeList.getLast? = some p) :
    c.borrow size =
      (some (p + (c.allocSize_ : Int) - (size : Int)),
       { c with freeList := c.freeList.dropLast }) := by
  unfold StackCache.borrow
  simp [hmatch, hlast]

/-- `giveBack` with a recomputed base address outside the backing region
rejects the pointer and leaves the cache unchanged. -/
theorem giveBack_outside (c : StackCache) (limit : Int) (size : Nat)
    (h : limit + (size : Int) - (allocSize c.pagesize size : Int) < c.storage ∨
         c.storage + (c.allocSize_ : Int) * (kNumGuarded : Int) ≤
           limit + (size : Int) - (allocSize c.pagesize size : Int)) :
    c.giveBack limit size = (false, c) := by
  unfold StackCache.giveBack
  simp only []
  rw [if_pos h]

/-- `giveBack` with a recomputed base address inside the backing region
pushes it onto the free list and returns `true`. -/
theorem giveBack_inside (c : StackCache) (limit : Int) (size : Nat)
    (h1 : c.storage ≤ limit + (size : Int) - (allocSize c.pagesize size : Int))
    (h2 : limit + (size : Int) - (allocSize c.pagesize size : Int) <
          c.storage + (c.allocSize_ : Int) * (kNumGuarded : Int)) :
    c.giveBack limit size =
      (true, { c with freeList := c.freeList ++
        [limit + (size : Int) - (allocSize c.pagesize size : Int)] }) := by
  unfold StackCache.giveBack
  simp only []
  rw [if_neg]
  push_neg
  exact ⟨not_lt.mp (not_lt.mpr h1), not_lt.mp (not_lt.mpr (by omega))⟩

/-- C4: for every requested stack size `S` and page size `P`,
`allocSize(S) = P * (ceil(S/P) + 1)` (with `⌈/⌉` the ceiling division);
`borrow(size)` returns `nullptr` exactly when `allocSize(size)` differs from
the cache's fixed class or the free list is empty, and otherwise pops one
slot base address `p` from the free list and returns
`p + allocSize - size`; moreover the usable bytes sit at least one full page
above the slot base (the guard page lies immediately below them). -/
theorem c4_allocSize_and_borrow :
    (∀ P S : Nat, allocSize P S = P * (S ⌈/⌉ P + 1)) ∧
    (∀ (c : StackCache) (size : Nat),
        (c.borrow size).1 = none ↔
          allocSize c.pagesize size ≠ c.allocSize_ ∨ c.freeList = []) ∧
    (∀ (c : StackCache) (size : Nat) (p : Int),
        allocSize c.pagesize size = c.allocSize_ →
        c.freeList.getLast? = some p →
        c.borrow size =
          (some (p + (c.allocSize_ : Int) - (size : Int)),
           { c with freeList := c.freeList.dropLast })) ∧
    (∀ P size : Nat, 0 < P → size + P ≤ allocSize P size) := by
  refine ⟨?_, borrow_none_iff, borrow_last, size_add_page_le_allocSize⟩
  intro P S
  rw [Nat.ceilDiv_eq_add_pred_div]
  rfl

/-- Witness for C4: a concrete cache with page size 4096 and size class 8192;
borrowing 4096 bytes pops slot base 8192 and returns `8192 + 8192 - 4096`. -/
theorem c4_witness :
    StackCache.borrow ⟨4096, 0, 8192, [0, 8192]⟩ 4096 =
      (some 12288, ⟨4096, 0, 8192, [0]⟩) ∧
    (4096 : Nat) + 4096 ≤ allocSize 4096 4096 := by
  constructor
  · have h := c4_allocSize_and_borrow.2.2.1 ⟨4096, 0, 8192, [0, 8192]⟩ 4096 8192
      (by decide) (by decide)
    simpa using h
  · exact c4_allocSize_and_borrow.2.2.2 4096 4096 (by decide)

/-- C5 counterexample: the code's `giveBack` does not test slot alignment.
For the cache with page size 4096, class `allocSize_ = 8192` and backing
region starting at address 0, the call `giveBack(limit = 8192, size = 4096)`
recomputes `p = 8192 + 4096 - 8192 = 4096`, which is inside the region but
not slot-aligned; the claim says `giveBack` returns `false`, yet the code
accepts the pointer, pushes `4096` and returns `true` (in a debug build the
alignment `assert` would abort instead — either way it does not return
`false`). -/
theorem c5_counterexample :
    StackCache.giveBack ⟨4096, 0, 8192, []⟩ 8192 4096 =
      (true, ⟨4096, 0, 8192, [(4096 : Int)]⟩) ∧
    ¬ StackCache.IsSlotBase ⟨4096, 0, 8192, []⟩ 4096 := by
  constructor
  · decide
  · rintro ⟨k, hk, he⟩
    simp only [StackCache.IsSlotBase, kNumGuarded] at *
    omega

/-- C5 (amended): `giveBack(pointer, size)` recomputes
`slotBase = pointer + size - allocSize(size)` and returns `false` (leaving
the free list unchanged) exactly when `slotBase` falls outside this cache's
backing mapping; when `slotBase` is inside the mapping it pushes `slotBase`
and returns `true` — slot alignment (and the size-class match) are only
`assert`ed, not tested. -/
theorem c5_giveBack_checks_range_not_alignment (c : StackCache) (limit : Int)
    (size : Nat) :
    (c.giveBack limit size = (false, c) ↔
      (limit + (size : Int) - (allocSize c.pagesize size : Int) < c.storage ∨
       c.storage + (c.allocSize_ : Int) * (kNumGuarded : Int) ≤
         limit + (size : Int) - (allocSize c.pagesize size : Int))) ∧
    (c.storage ≤ limit + (size : Int) - (allocSize c.pagesize size : Int) →
     limit + (size : Int) - (allocSize c.pagesize size : Int) <
       c.storage + (c.allocSize_ : Int) * (kNumGuarded : Int) →
     c.giveBack limit size =
       (true, { c with freeList := c.freeList ++
         [limit + (size : Int) - (allocSize c.pagesize size : Int)] })) := by
  constructor
  · constructor
    · intro hres
      by_contra hout
      push_neg at hout
      have := giveBack_inside c limit size (by omega) (by omega)
      rw [this] at hres
      exact absurd (congrArg Prod.fst hres) (by simp)
    · exact giveBack_outside c limit size
  · exact giveBack_inside c limit size

/-- Witness for C5 (amended): in-range accepted push and out-of-range
rejection on a concrete cache. -/
theorem c5_witness :
    StackCache.giveBack ⟨4096, 0, 8192, []⟩ 8192 4096 =
      (true, { pagesize := 4096, storage := 0, allocSize_ := 8192,
               freeList := ([] : List Int) ++ [(4096 : Int)] }) ∧
    StackCache.giveBack ⟨4096, 0, 8192, []⟩ 9000000 4096 = (false, ⟨4096, 0, 8192, []⟩) := by
  constructor
  · exact (c5_giveBack_checks_range_not_alignment ⟨4096, 0, 8192, []⟩ 8192 4096).2
      (by decide) (by decide)
  · exact (c5_giveBack_checks_range_not_alignment ⟨4096, 0, 8192, []⟩ 9000000 4096).1.mpr
      (by decide)

/-! ### The StackCache pool invariant -/

/-- A failed `borrow` leaves the cache unchanged. -/
theorem borrow_fail_eq (c c' : StackCache) (size : Nat)
    (h : c.borrow size = (none, c')) : c' = c := by
  unfold StackCache.borrow at h
  by_cases hm : allocSize c.pagesize size ≠ c.allocSize_
  · rw [if_pos hm] at h
    exact (Prod.mk.injEq _ _ _ _ ▸ h).2.symm
  · rw [if_neg hm] at h
    rcases hl : c.freeList.getLast? with _ | p
    · rw [hl] at h
      exact (Prod.mk.injEq _ _ _ _ ▸ h).2.symm
    · rw [hl] at h
      cases (Prod.mk.injEq _ _ _ _ ▸ h).1

/-- Characterization of a successful `borrow`. -/
theorem borrow_some_spec (c c' : StackCache) (size : Nat) (p : Int)
    (h : c.borrow size = (some p, c')) :
    allocSize c.pagesize size = c.allocSize_ ∧
    ∃ q, c.freeList.getLast? = some q ∧
      p = q + (c.allocSize_ : Int) - (size : Int) ∧
      c' = { c with freeList := c.freeList.dropLast } := by
  unfold StackCache.borrow at h
  by_cases hm : allocSize c.pagesize size ≠ c.allocSize_
  · rw [if_pos hm] at h
    cases (Prod.mk.injEq _ _ _ _ ▸ h).1
  · rw [if_neg hm] at h
    rcases hl : c.freeList.getLast? with _ | q
    · rw [hl] at h
      cases (Prod.mk.injEq _ _ _ _ ▸ h).1
    · rw [hl] at h
      have h1 := (Prod.mk.injEq _ _ _ _ ▸ h).1
      have h2 := (Prod.mk.injEq _ _ _ _ ▸ h).2
      refine ⟨not_not.mp hm, q, rfl, ?_, h2.symm⟩
      exact (Option.some.injEq _ _ ▸ h1).symm

/-- A slot base address lies inside the backing region. -/
theorem slot_base_bounds (c : StackCache) (k : Nat)
    (hsz : 0 < c.allocSize_) (hk : k < kNumGuarded) :
    c.storage ≤ c.storage + (c.allocSize_ : Int) * (k : Int) ∧
    c.storage + (c.allocSize_ : Int) * (k : Int) <
      c.storage + (c.allocSize_ : Int) * (kNumGuarded : Int) := by
  constructor
  · exact le_add_of_nonneg_right
      (mul_nonneg (Int.natCast_nonneg _) (Int.natCast_nonneg _))
  · exact add_lt_add_left
      (mul_lt_mul_of_pos_left (by exact_mod_cast hk) (by exact_mod_cast hsz)) _

/-- A slot base address lies inside the backing region (via `IsSlotBase`). -/
theorem isSlotBase_in_range (c : StackCache) (p : Int)
    (hsz : 0 < c.allocSize_) (h : c.IsSlotBase p) :
    c.storage ≤ p ∧
    p < c.storage + (c.allocSize_ : Int) * (kNumGuarded : Int) := by
  obtain ⟨k, hk, rfl⟩ := h
  exact slot_base_bounds c k hsz hk

/-- The invariant holds of a freshly constructed cache. -/
theorem init_inv (P : Nat) (storage : Int) (stackSize : Nat) (hP : 0 < P) :
    (CacheSys.init P storage stackSize).Inv := by
  refine ⟨hP, Nat.mul_pos hP (Nat.succ_pos _), ?_, ?_, ?_⟩
  · show ((List.range kNumGuarded).map
        (fun i : Nat => storage + (allocSize P stackSize : Int) * (i : Int))).length +
      ([] : List (Int × Nat)).length = kNumGuarded
    rw [List.length_map, List.length_range]
    rfl
  · intro p hp
    have hp' : p ∈ (List.range kNumGuarded).map
        (fun i : Nat => storage + (allocSize P stackSize : Int) * (i : Int)) := hp
    obtain ⟨i, hi, rfl⟩ := List.mem_map.mp hp'
    exact ⟨i, List.mem_range.mp hi, rfl⟩
  · intro ls hls
    cases hls

/-- Each operation preserves the invariant. -/
theorem applyOp_inv (s : CacheSys) (op : CacheOp) (h : s.Inv) :
    (s.applyOp op).Inv := by
  obtain ⟨hpage, hsize, hcount, hfree, hbor⟩ := h
  cases op with
  | borrowOp size =>
      rcases hb : s.cache.borrow size with ⟨bp, c'⟩
      cases bp with
      | none =>
          have hc' := borrow_fail_eq s.cache c' size hb
          subst hc'
          have happly : s.applyOp (CacheOp.borrowOp size) =
              { cache := s.cache, borrowed := s.borrowed } := by
            simp only [CacheSys.applyOp]
            rw [hb]
          rw [happly]
          exact ⟨hpage, hsize, hcount, hfree, hbor⟩
      | some p =>
          obtain ⟨hmatch, q, hlast, hp, hc'⟩ := borrow_some_spec s.cache c' size p hb
          subst hc'
          have happly : s.applyOp (CacheOp.borrowOp size) =
              { cache := { s.cache with freeList := s.cache.freeList.dropLast },
                borrowed := s.borrowed ++ [(p, size)] } := by
            simp only [CacheSys.applyOp]
            rw [hb]
          rw [happly]
          have hqmem : q ∈ s.cache.freeList := List.mem_of_mem_getLast? hlast
          have hnonempty : s.cache.freeList ≠ [] := by
            intro he
            rw [he] at hqmem
            cases hqmem
          refine ⟨hpage, hsize, ?_, ?_, ?_⟩
          · simp only [List.length_dropLast, List.length_append,
              List.length_cons, List.length_nil]
            have := List.length_pos.mpr hnonempty
            omega
          · intro p' hp'
            exact hfree p' ((List.dropLast_sublist s.cache.freeList).subset hp')
          · intro ls hls
            rcases List.mem_append.mp hls with hin | hnew
            · exact hbor ls hin
            · have hls' : ls = (p, size) := by
                cases hnew with
                | head => rfl
                | tail _ hm => cases hm
              subst hls'
              obtain ⟨k, hk, hq⟩ := hfree q hqmem
              refine ⟨hmatch, ?_, k, hk, ?_⟩
              · show size ≤ s.cache.allocSize_
                have := size_add_page_le_allocSize s.cache.pagesize size hpage
                omega
              · show p = s.cache.storage + (s.cache.allocSize_ : Int) * (k : Int) +
                  (s.cache.allocSize_ : Int) - (size : Int)
                rw [hp, hq]
  | giveBackOp i =>
      cases hg : s.borrowed.get? i with
      | none =>
          have happly : s.applyOp (CacheOp.giveBackOp i) = s := by
            simp only [CacheSys.applyOp]
            rw [hg]
          rw [happly]
          exact ⟨hpage, hsize, hcount, hfree, hbor⟩
      | some ls =>
          have hmem : ls ∈ s.borrowed := List.get?_mem hg
          have hi : i < s.borrowed.length := (List.get?_eq_some.mp hg).1
          obtain ⟨hmatch, hle, k, hk, hshape⟩ := hbor ls hmem
          have hpn : ls.1 + (ls.2 : Int) - (allocSize s.cache.pagesize ls.2 : Int) =
              s.cache.storage + (s.cache.allocSize_ : Int) * (k : Int) := by
            rw [hmatch, hshape]
            ring
          obtain ⟨hlo, hhi⟩ := slot_base_bounds s.cache k hsize hk
          have hgb := giveBack_inside s.cache ls.1 ls.2
            (by rw [hpn]; exact hlo) (by rw [hpn]; exact hhi)
          have hstep : s.applyOp (CacheOp.giveBackOp i) =
              (match s.cache.giveBack ls.1 ls.2 with
               | (true, c') => { cache := c', borrowed := s.borrowed.eraseIdx i }
               | (false, c') => ({ cache := c', borrowed := s.borrowed } : CacheSys)) := by
            simp only [CacheSys.applyOp]
            rw [hg]
          have happly : s.applyOp (CacheOp.giveBackOp i) =
              { cache := { s.cache with freeList := s.cache.freeList ++
                  [ls.1 + (ls.2 : Int) - (allocSize s.cache.pagesize ls.2 : Int)] },
                borrowed := s.borrowed.eraseIdx i } := by
            rw [hstep, hgb]
          rw [happly]
          refine ⟨hpage, hsize, ?_, ?_, ?_⟩
          · simp only [List.length_append, List.length_cons, List.length_nil,
              List.length_eraseIdx]
            simp only [hi, if_true]
            omega
          · intro p' hp'
            rcases List.mem_append.mp hp' with hin | hnew
            · exact hfree p' hin
            · have hp'' : p' = ls.1 + (ls.2 : Int) -
                  (allocSize s.cache.pagesize ls.2 : Int) := by
                cases hnew with
                | head => rfl
                | tail _ hm => cases hm
              subst hp''
              exact ⟨k, hk, hpn⟩
          · intro ls' hls'
            exact hbor ls' ((List.eraseIdx_sublist s.borrowed i).subset hls')

/-- The invariant holds along any run of operations. -/
theorem runOps_inv (ops : List CacheOp) (s : CacheSys) (h : s.Inv) :
    (CacheSys.runOps ops s).Inv := by
  induction ops generalizing s with
  | nil => exact h
  | cons op ops ih => exact ih (s.applyOp op) (applyOp_inv s op h)

/-- The inductive invariant implies the claimed pool invariant. -/
theorem inv_goodState (s : CacheSys) (h : s.Inv) : s.GoodState := by
  obtain ⟨hpage, hsize, hcount, hfree, hbor⟩ := h
  exact ⟨hcount, fun p hp =>
    ⟨isSlotBase_in_range s.cache p hsize (hfree p hp), hfree p hp⟩⟩

/-- C6 counterexample: the pool invariant does not survive arbitrary
`giveBack` operations.  On a fresh cache (page size 4096, class 8192,
storage at 0, all 100 slots free, nothing borrowed), the single operation
`giveBack(limit = 8192, size = 4096)` — an alien pointer that no `borrow`
produced — recomputes base `4096`, accepts it (it is inside the region) and
pushes it: the free list now has 101 entries while the outstanding borrow
count is 0 (sum 101, not 100), and the pushed address `4096` is not
slot-aligned. -/
theorem c6_counterexample :
    ((StackCache.fresh 4096 0 4096).giveBack 8192 4096).1 = true ∧
    ((StackCache.fresh 4096 0 4096).giveBack 8192 4096).2.freeList.length = 101 ∧
    (4096 : Int) ∈ ((StackCache.fresh 4096 0 4096).giveBack 8192 4096).2.freeList ∧
    ¬ (StackCache.fresh 4096 0 4096).IsSlotBase 4096 := by
  refine ⟨by decide, by decide, by decide, ?_⟩
  rintro ⟨k, hk, he⟩
  have h1 : (StackCache.fresh 4096 0 4096).storage = 0 := rfl
  have h2 : (StackCache.fresh 4096 0 4096).allocSize_ = 8192 := rfl
  rw [h1, h2] at he
  have hk' : k < 100 := hk
  omega

/-- C6 (amended): for every sequence of `borrow` operations and `giveBack`s
of previously borrowed pointers (returned with the size they were borrowed
at — the interface contract; C5 records that `giveBack` itself does not
check alignment), the invariant holds: free-list size plus outstanding
borrow count equals the slot count 100, and every free-list address lies
inside the backing region on a slot boundary.  In particular, on a fresh
cache 100 successive borrows of the matching size all succeed (100 pointers
are outstanding) and a 101st borrow returns no capacity. -/
theorem c6_pool_invariant (P : Nat) (storage : Int) (stackSize : Nat)
    (ops : List CacheOp) (hP : 0 < P) :
    (CacheSys.runOps ops (CacheSys.init P storage stackSize)).GoodState ∧
    (CacheSys.runOps (List.replicate kNumGuarded (CacheOp.borrowOp 4096))
        (CacheSys.init 4096 0 4096)).borrowed.length = kNumGuarded ∧
    ((CacheSys.runOps (List.replicate kNumGuarded (CacheOp.borrowOp 4096))
        (CacheSys.init 4096 0 4096)).cache.borrow 4096).1 = none := by
  refine ⟨inv_goodState _ (runOps_inv ops _ (init_inv P storage stackSize hP)),
    ?_, ?_⟩
  · set_option maxRecDepth 10000 in decide
  · set_option maxRecDepth 10000 in decide

/-- Witness for C6: a borrow followed by a give-back of that borrow on a
concrete fresh cache. -/
theorem c6_witness :
    (CacheSys.runOps [CacheOp.borrowOp 4096, CacheOp.giveBackOp 0]
        (CacheSys.init 4096 0 4096)).GoodState ∧
    (CacheSys.runOps (List.replicate kNumGuarded (CacheOp.borrowOp 4096))
        (CacheSys.init 4096 0 4096)).borrowed.length = kNumGuarded ∧
    ((CacheSys.runOps (List.replicate kNumGuarded (CacheOp.borrowOp 4096))
        (CacheSys.init 4096 0 4096)).cache.borrow 4096).1 = none :=
  c6_pool_invariant 4096 0 4096 [CacheOp.borrowOp 4096, CacheOp.giveBackOp 0]
    (by decide)

/-! ### CacheManager: the pool cap -/

/-- One `getStackCache` call keeps the live-pool counter within the cap. -/
theorem getStackCache_le (m : CacheManager) (h : m.inUse ≤ kMaxInUse) :
    m.getStackCache.2.inUse ≤ kMaxInUse := by
  unfold CacheManager.getStackCache
  split
  · next hlt => simpa using hlt
  · simpa using h

/-- The counter stays within the cap along any run of well-formed manager
operations. -/
theorem runOps_inUse_le (ops : List MgrOp) (m m' : CacheManager)
    (hrun : CacheManager.runOps ops m = some m') (hm : m.inUse ≤ kMaxInUse) :
    m'.inUse ≤ kMaxInUse := by
  induction ops generalizing m with
  | nil =>
      unfold CacheManager.runOps at hrun
      cases hrun
      exact hm
  | cons op ops ih =>
      cases op with
      | get =>
          exact ih m.getStackCache.2 hrun (getStackCache_le m hm)
      | release =>
          unfold CacheManager.runOps at hrun
          unfold CacheManager.giveBack at hrun
          by_cases h0 : m.inUse = 0
          · simp [h0] at hrun
          · simp only [h0, if_false] at hrun
            exact ih _ hrun (by simp; omega)

/-- C7: along every run of well-formed manager operations (each release
destroys a handle that exists), the live-pool counter never exceeds the cap
`kMaxInUse = 100`; `getStackCache` fails exactly when the counter has
reached the cap and otherwise increments it; and from a state at the cap,
releasing one handle decrements the counter, after which exactly one more
request succeeds (the next one fails again). -/
theorem c7_manager_cap (ops : List MgrOp) (m' : CacheManager)
    (hrun : CacheManager.runOps ops { inUse := 0 } = some m') :
    m'.inUse ≤ kMaxInUse ∧
    (m'.getStackCache.1 = false ↔ m'.inUse = kMaxInUse) ∧
    (m'.getStackCache.1 = true → m'.getStackCache.2.inUse = m'.inUse + 1) ∧
    (m'.inUse = kMaxInUse →
      ∃ m2, m'.giveBack = some m2 ∧
        m2.inUse = m'.inUse - 1 ∧
        m2.getStackCache = (true, { inUse := m'.inUse }) ∧
        CacheManager.getStackCache { inUse := m'.inUse } =
          (false, { inUse := m'.inUse })) := by
  have hle : m'.inUse ≤ kMaxInUse := runOps_inUse_le ops _ m' hrun (by simp)
  refine ⟨hle, ?_, ?_, ?_⟩
  · unfold CacheManager.getStackCache
    split
    · next hlt => simp; omega
    · next hge => simp; omega
  · unfold CacheManager.getStackCache
    split
    · simp
    · simp
  · intro hcap
    have hpos : 0 < m'.inUse := by
      rw [hcap]
      decide
    refine ⟨{ inUse := m'.inUse - 1 }, ?_, rfl, ?_, ?_⟩
    · unfold CacheManager.giveBack
      rw [if_neg (by omega)]
    · unfold CacheManager.getStackCache
      rw [if_pos (by simp [kMaxInUse] at hcap ⊢; omega)]
      simp
      omega
    · unfold CacheManager.getStackCache
      rw [if_neg (by simp [kMaxInUse] at hcap ⊢; omega)]

/-- Witness for C7: one hundred `get` operations drive the counter to the
cap; the conclusions are evaluated there. -/
theorem c7_witness :
    ({ inUse := 100 } : CacheManager).inUse ≤ kMaxInUse ∧
    ((CacheManager.getStackCache { inUse := 100 }).1 = false ↔
      ({ inUse := 100 } : CacheManager).inUse = kMaxInUse) ∧
    ((CacheManager.getStackCache { inUse := 100 }).1 = true →
      (CacheManager.getStackCache { inUse := 100 }).2.inUse =
        ({ inUse := 100 } : CacheManager).inUse + 1) ∧
    (({ inUse := 100 } : CacheManager).inUse = kMaxInUse →
      ∃ m2, CacheManager.giveBack { inUse := 100 } = some m2 ∧
        m2.inUse = ({ inUse := 100 } : CacheManager).inUse - 1 ∧
        m2.getStackCache = (true, { inUse := 100 }) ∧
        CacheManager.getStackCache { inUse := 100 } =
          (false, { inUse := 100 })) :=
  c7_manager_cap (List.replicate 100 MgrOp.get) { inUse := 100 }
    (by set_option maxRecDepth 4000 in decide)

/-! ### GuardPageAllocator -/

/-- C8 counterexample to "the attempt happens on the first `allocate` call
only": with the manager at its cap, the first call attempts and fails to
obtain a pool (`stackCache_` stays null), so the second call attempts
again — and, if a pool slot has been released meanwhile (counter 99), that
second attempt succeeds, i.e. the handle is obtained on a non-first call. -/
theorem c8_counterexample :
    (GuardPageAllocator.allocate 4096 0 ⟨true, none⟩ ⟨100⟩ 4096).attempted = true ∧
    (GuardPageAllocator.allocate 4096 0 ⟨true, none⟩ ⟨100⟩ 4096).gpa =
      ⟨true, none⟩ ∧
    (GuardPageAllocator.allocate 4096 0
      (GuardPageAllocator.allocate 4096 0 ⟨true, none⟩ ⟨100⟩ 4096).gpa
      (GuardPageAllocator.allocate 4096 0 ⟨true, none⟩ ⟨100⟩ 4096).mgr
      4096).attempted = true ∧
    (GuardPageAllocator.allocate 4096 0 ⟨true, none⟩ ⟨99⟩ 4096).attempted = true ∧
    (GuardPageAllocator.allocate 4096 0 ⟨true, none⟩ ⟨99⟩ 4096).gpa.stackCache.isSome =
      true := by
  refine ⟨by decide, by decide, by decide, by decide, by decide⟩

/-- C8 (amended): on every `allocate` call, the allocator consults the
`CacheManager` exactly when guard pages are enabled and it does not yet hold
a pool handle (so the attempt repeats on each call until a handle is
obtained); once it holds a handle it never requests another (at most one
handle, kept for the allocator's lifetime); `allocate` tries the pool's
`borrow` first and uses the fallback allocator exactly when there is no pool
or `borrow` returns no capacity. -/
theorem c8_allocate_lazy_pool (P : Nat) (st : Int) (g : GuardPageAllocator)
    (m : CacheManager) (size : Nat) :
    ((GuardPageAllocator.acquire P st g m size).2.2 = true ↔
      (g.useGuardPages = true ∧ g.stackCache = none)) ∧
    (∀ c, g.stackCache = some c →
      GuardPageAllocator.acquire P st g m size = (g, m, false)) ∧
    (∀ c, (GuardPageAllocator.acquire P st g m size).1.stackCache = some c →
      (GuardPageAllocator.allocate P st g m size).gpa.stackCache =
        some (c.borrow size).2 ∧
      ((c.borrow size).1 = none →
        (GuardPageAllocator.allocate P st g m size).ptr =
          AllocPtr.fallback size) ∧
      (∀ p, (c.borrow size).1 = some p →
        (GuardPageAllocator.allocate P st g m size).ptr = AllocPtr.pool p)) ∧
    ((GuardPageAllocator.acquire P st g m size).1.stackCache = none →
      (GuardPageAllocator.allocate P st g m size).gpa.stackCache = none ∧
      (GuardPageAllocator.allocate P st g m size).ptr =
        AllocPtr.fallback size) := by
  refine ⟨?_, ?_, ?_, ?_⟩
  · constructor
    · intro hatt
      by_contra hng
      unfold GuardPageAllocator.acquire at hatt
      rw [if_neg hng] at hatt
      simp at hatt
    · intro hg
      unfold GuardPageAllocator.acquire
      rw [if_pos hg]
  · intro c hc
    unfold GuardPageAllocator.acquire
    rw [if_neg]
    rintro ⟨-, hnone⟩
    rw [hc] at hnone
    cases hnone
  · intro c hc
    simp only [GuardPageAllocator.allocate]
    split
    · next c'' heq =>
        rw [hc] at heq
        injection heq with heq'
        subst heq'
        split
        · next p c' hb =>
            rw [hb]
            refine ⟨rfl, ?_, ?_⟩
            · intro hnone
              simp at hnone
            · intro q hq
              simp at hq
              subst hq
              rfl
        · next c' hb =>
            rw [hb]
            exact ⟨rfl, fun _ => rfl, fun q hq => by simp at hq⟩
    · next heq =>
        rw [hc] at heq
        cases heq
  · intro hc
    simp only [GuardPageAllocator.allocate]
    split
    · next c'' heq =>
        rw [hc] at heq
        cases heq
    · exact ⟨hc, rfl⟩

/-- Witness for C8: an allocator that already holds an (empty) pool does not
consult the manager again, and an exhausted pool routes to the fallback. -/
theorem c8_witness :
    GuardPageAllocator.acquire 4096 0 ⟨true, some ⟨4096, 0, 8192, []⟩⟩ ⟨0⟩ 4096 =
      (⟨true, some ⟨4096, 0, 8192, []⟩⟩, ⟨0⟩, false) ∧
    (GuardPageAllocator.allocate 4096 0 ⟨true, some ⟨4096, 0, 8192, []⟩⟩ ⟨0⟩
        4096).ptr = AllocPtr.fallback 4096 :=
  ⟨(c8_allocate_lazy_pool 4096 0 ⟨true, some ⟨4096, 0, 8192, []⟩⟩ ⟨0⟩ 4096).2.1
      ⟨4096, 0, 8192, []⟩ rfl,
   ((c8_allocate_lazy_pool 4096 0 ⟨true, some ⟨4096, 0, 8192, []⟩⟩ ⟨0⟩ 4096).2.2.1
      ⟨4096, 0, 8192, []⟩ (by decide)).2.1 (by decide)⟩

end Fibers

namespace Symbolizer

/-- Once `gInRecursiveSignalHandler` is set, a recursive fault is a no-op. -/
theorem recursiveFault_of_true (s : RecState) (c : Bool)
    (h : s.inRecursive = true) : recursiveFault s c = s := by
  unfold recursiveFault
  simp [h]

/-- Once the flag is set, a whole sequence of recursive faults is a no-op. -/
theorem recRun_of_true (faults : List Bool) (s : RecState)
    (h : s.inRecursive = true) : recRun faults s = s := by
  induction faults with
  | nil => rfl
  | cons c cs ih =>
      show List.foldl recursiveFault (recursiveFault s c) cs = s
      rw [recursiveFault_of_true s c h]
      exact ih

/-- C2: starting from the initial state (flag clear), a first same-thread
recursive fault prints the warning line followed by the
unsymbolized dump, sets the one-shot flag, and every further recursive fault
changes nothing (same final state regardless of how many later faults
occur); with a successful capture the dump is address-only
(`safeModeLine` then `rawAddressFrames`) and a symbolization-free dump never
contains symbolized frames. -/
theorem c2_recursion_one_shot :
    (∀ (c : Bool) (rest : List Bool),
        recRun (c :: rest) { inRecursive := false, out := [] } =
          { inRecursive := true,
            out := TraceItem.recursionWarning :: dumpStackTrace c false }) ∧
    (∀ (out : List TraceItem) (c : Bool),
        recursiveFault { inRecursive := true, out := out } c =
          { inRecursive := true, out := out }) ∧
    dumpStackTrace true false =
      [TraceItem.safeModeLine, TraceItem.rawAddressFrames] ∧
    (∀ c : Bool, TraceItem.symbolizedFrames ∉ dumpStackTrace c false) := by
  refine ⟨?_, ?_, rfl, ?_⟩
  · intro c rest
    show List.foldl recursiveFault
        (recursiveFault { inRecursive := false, out := [] } c) rest = _
    rw [show recursiveFault { inRecursive := false, out := [] } c =
        { inRecursive := true,
          out := TraceItem.recursionWarning :: dumpStackTrace c false } from rfl]
    exact recRun_of_true rest _ rfl
  · intro out c
    exact recursiveFault_of_true _ c rfl
  · intro c
    cases c <;> decide

/-- C3: after the dump body finishes, the handler releases the claim slot,
then installs the disposition for exactly the handled signal — the saved one
when the signal number is in the `kFatalSignals` table
(SIGSEGV, SIGILL, SIGFPE, SIGABRT, SIGBUS, SIGTERM), otherwise `SIG_DFL` —
and finally re-raises the same signal, in that order. -/
theorem c3_completion_restores_and_reraises (signum : Nat) :
    signalHandlerCompletion signum =
      if signum ∈ [11, 4, 8, 6, 7, 15] then
        [SigAction.releaseClaim,
         SigAction.installDisposition signum (Disposition.saved signum),
         SigAction.raiseSignal signum]
      else
        [SigAction.releaseClaim,
         SigAction.installDisposition signum Disposition.defaultAction,
         SigAction.raiseSignal signum] := by
  by_cases h : signum ∈ [11, 4, 8, 6, 7, 15]
  · rw [if_pos h]
    fin_cases h <;> decide
  · rw [if_neg h]
    simp only [List.mem_cons, List.not_mem_nil, or_false, not_or] at h
    obtain ⟨h1, h2, h3, h4, h5, h6⟩ := h
    unfold signalHandlerCompletion callPreviousSignalHandler
    rw [List.find?_eq_none.mpr]
    intro p hp
    fin_cases hp <;> simp <;> omega

/-- C9: appending to the registry is permitted while unfrozen; after
`markInstalled` has frozen it, any further `add` is fatal (the `CHECK`
aborts), and a second `markInstalled` is likewise fatal. -/
theorem c9_registry_frozen_is_fatal (r r' : FatalSignalCallbackRegistry)
    (cb : Nat) (hfrozen : r.markInstalled = some r') :
    r'.add cb = none ∧
    r'.markInstalled = none ∧
    (r.installed = false →
      r.add cb = some { r with handlers := r.handlers ++ [cb] }) := by
  unfold FatalSignalCallbackRegistry.markInstalled at hfrozen
  by_cases h : r.installed
  · simp [h] at hfrozen
  · simp [h] at hfrozen
    subst hfrozen
    refine ⟨rfl, rfl, fun _ => ?_⟩
    unfold FatalSignalCallbackRegistry.add
    simp [h]

/-- Witness for C9 at the freshly constructed registry. -/
theorem c9_witness :
    FatalSignalCallbackRegistry.add ⟨true, []⟩ 7 = none ∧
    FatalSignalCallbackRegistry.markInstalled ⟨true, []⟩ = none ∧
    (FatalSignalCallbackRegistry.initial.installed = false →
      FatalSignalCallbackRegistry.initial.add 7 =
        some { FatalSignalCallbackRegistry.initial with handlers :=
          FatalSignalCallbackRegistry.initial.handlers ++ [7] }) :=
  c9_registry_frozen_is_fatal FatalSignalCallbackRegistry.initial ⟨true, []⟩ 7
    (by decide)

/-! ### The dump-serialization invariant -/

/-- Appending one more complete body. -/
theorem bodiesConcat_append (reg : FatalSignalCallbackRegistry) (signum : Nat)
    (ts : List Nat) (t : Nat) :
    bodiesConcat reg signum (ts ++ [t]) =
      bodiesConcat reg signum ts ++ fullBody reg signum t := by
  induction ts with
  | nil => simp [bodiesConcat]
  | cons t' ts ih =>
      show fullBody reg signum t' ++ bodiesConcat reg signum (ts ++ [t]) =
        (fullBody reg signum t' ++ bodiesConcat reg signum ts) ++
          fullBody reg signum t
      rw [ih, List.append_assoc]

/-- `outShape` is stable under steps that keep the output, the claim slot and
the claim holder's program counter. -/
theorem outShape_congr (reg : FatalSignalCallbackRegistry) (signum : Nat)
    (s T : SigSys) (h1 : T.sigThread = s.sigThread) (h2 : T.output = s.output)
    (h3 : ∀ t, s.sigThread = some t → T.pcs t = s.pcs t)
    (h : outShape reg signum s) : outShape reg signum T := by
  obtain ⟨ts, hout⟩ := h
  refine ⟨ts, ?_⟩
  rcases hsig : s.sigThread with _ | t
  · rw [hsig] at hout
    rw [h2, h1, hsig]
    exact hout
  · rw [hsig] at hout
    rw [h2, h1, hsig]
    show s.output = bodiesConcat reg signum ts ++ bodySoFar reg signum t (T.pcs t)
    rw [h3 t hsig]
    exact hout

/-- `outShape` is preserved when the claim holder flushes the next section
of its report body. -/
theorem outShape_emit (reg : FatalSignalCallbackRegistry) (signum : Nat)
    (s : SigSys) (tid : Nat) (item : Item) (pcnew : PC)
    (howner : s.sigThread = some tid)
    (hsofar : bodySoFar reg signum tid pcnew =
      bodySoFar reg signum tid (s.pcs tid) ++ [(tid, item)])
    (h : outShape reg signum s) :
    outShape reg signum
      { s with output := s.output ++ [(tid, item)]
               pcs := Function.update s.pcs tid pcnew } := by
  obtain ⟨ts, hout⟩ := h
  rw [howner] at hout
  have hout' : s.output =
      bodiesConcat reg signum ts ++ bodySoFar reg signum tid (s.pcs tid) := hout
  refine ⟨ts, ?_⟩
  show s.output ++ [(tid, item)] =
    bodiesConcat reg signum ts ++
      (match s.sigThread with
       | none => []
       | some t => bodySoFar reg signum t (Function.update s.pcs tid pcnew t))
  rw [howner]
  show s.output ++ [(tid, item)] =
    bodiesConcat reg signum ts ++
      bodySoFar reg signum tid (Function.update s.pcs tid pcnew tid)
  rw [Function.update_same, hsofar, hout', List.append_assoc]

/-- Each step of any thread preserves the invariant. -/
theorem sigStep_inv (reg : FatalSignalCallbackRegistry) (signum : Nat)
    (s : SigSys) (tid : Nat) (h : SigInv reg signum s) :
    SigInv reg signum (sigStep reg signum s tid) := by
  obtain ⟨hA, hB, hout⟩ := h
  by_cases hterm : s.terminated
  · have happly : sigStep reg signum s tid = s := by
      unfold sigStep
      rw [if_pos hterm]
    rw [happly]
    exact ⟨hA, hB, hout⟩
  cases hpc : s.pcs tid with
  | start =>
      have happly : sigStep reg signum s tid =
          { s with pcs := Function.update s.pcs tid PC.claiming } := by
        unfold sigStep
        rw [if_neg hterm, hpc]
      rw [happly]
      refine ⟨?_, ?_, ?_⟩
      · intro t ht
        have ht' : inDumpBody (Function.update s.pcs tid PC.claiming t) = true := ht
        show s.sigThread = some t
        by_cases htid : t = tid
        · subst htid
          rw [Function.update_same] at ht'
          exact Bool.noConfusion ht'
        · rw [Function.update_noteq htid] at ht'
          exact hA t ht'
      · intro t ht
        have ht' : s.sigThread = some t := ht
        show inDumpBody (Function.update s.pcs tid PC.claiming t) = true
        have hd := hB t ht'
        have htid : t ≠ tid := by
          intro he
          rw [he, hpc] at hd
          exact Bool.noConfusion hd
        rw [Function.update_noteq htid]
        exact hd
      · refine outShape_congr reg signum s _ rfl rfl ?_ hout
        intro t htd
        have hd := hB t htd
        have htid : t ≠ tid := by
          intro he
          rw [he, hpc] at hd
          exact Bool.noConfusion hd
        exact Function.update_noteq htid _ _
  | claiming =>
      rcases hsig : s.sigThread with _ | owner
      · have happly : sigStep reg signum s tid =
            { s with sigThread := some tid
                     pcs := Function.update s.pcs tid PC.dumpTime } := by
          unfold sigStep
          rw [if_neg hterm, hpc, hsig]
        rw [happly]
        refine ⟨?_, ?_, ?_⟩
        · intro t ht
          show (some tid : Option Nat) = some t
          have ht' : inDumpBody (Function.update s.pcs tid PC.dumpTime t) = true := ht
          by_cases htid : t = tid
          · subst htid
            rfl
          · rw [Function.update_noteq htid] at ht'
            have he := hA t ht'
            rw [hsig] at he
            exact Option.noConfusion he
        · intro t ht
          have ht' : (some tid : Option Nat) = some t := ht
          show inDumpBody (Function.update s.pcs tid PC.dumpTime t) = true
          injection ht' with he
          subst he
          rw [Function.update_same]
          rfl
        · obtain ⟨ts, houteq⟩ := hout
          rw [hsig] at houteq
          refine ⟨ts, ?_⟩
          show s.output = bodiesConcat reg signum ts ++
            bodySoFar reg signum tid (Function.update s.pcs tid PC.dumpTime tid)
          rw [Function.update_same]
          exact houteq
      · by_cases howner : owner = tid
        · subst howner
          have hd := hB owner hsig
          rw [hpc] at hd
          exact Bool.noConfusion hd
        · have hstep : sigStep reg signum s tid =
              (if owner = tid then
                 (if s.inRecursive then
                    { s with pcs := Function.update s.pcs tid PC.release }
                  else
                    { s with inRecursive := true
                             output := s.output ++
                               [(tid, Item.recursionWarning),
                                (tid, Item.stackTrace false)]
                             pcs := Function.update s.pcs tid PC.release })
               else s) := by
            unfold sigStep
            rw [if_neg hterm, hpc, hsig]
          have happly : sigStep reg signum s tid = s := by
            rw [hstep, if_neg howner]
          rw [happly]
          exact ⟨hA, hB, hout⟩
  | dumpTime =>
      have howner : s.sigThread = some tid := hA tid (by rw [hpc]; rfl)
      have happly : sigStep reg signum s tid =
          { s with output := s.output ++ [(tid, Item.timestampLine)]
                   pcs := Function.update s.pcs tid PC.dumpInfo } := by
        unfold sigStep
        rw [if_neg hterm, hpc]
      rw [happly]
      refine ⟨?_, ?_, ?_⟩
      · intro t ht
        have ht' : inDumpBody (Function.update s.pcs tid PC.dumpInfo t) = true := ht
        show s.sigThread = some t
        by_cases htid : t = tid
        · subst htid
          exact howner
        · rw [Function.update_noteq htid] at ht'
          exact hA t ht'
      · intro t ht
        have ht' : s.sigThread = some t := ht
        show inDumpBody (Function.update s.pcs tid PC.dumpInfo t) = true
        rw [howner] at ht'
        injection ht' with he
        subst he
        rw [Function.update_same]
        rfl
      · exact outShape_emit reg signum s tid Item.timestampLine PC.dumpInfo
          howner (by rw [hpc]; rfl) hout
  | dumpInfo =>
      have howner : s.sigThread = some tid := hA tid (by rw [hpc]; rfl)
      have happly : sigStep reg signum s tid =
          { s with output := s.output ++ [(tid, Item.signalInfoLine signum)]
                   pcs := Function.update s.pcs tid PC.dumpTrace } := by
        unfold sigStep
        rw [if_neg hterm, hpc]
      rw [happly]
      refine ⟨?_, ?_, ?_⟩
      · intro t ht
        have ht' : inDumpBody (Function.update s.pcs tid PC.dumpTrace t) = true := ht
        show s.sigThread = some t
        by_cases htid : t = tid
        · subst htid
          exact howner
        · rw [Function.update_noteq htid] at ht'
          exact hA t ht'
      · intro t ht
        have ht' : s.sigThread = some t := ht
        show inDumpBody (Function.update s.pcs tid PC.dumpTrace t) = true
        rw [howner] at ht'
        injection ht' with he
        subst he
        rw [Function.update_same]
        rfl
      · exact outShape_emit reg signum s tid (Item.signalInfoLine signum)
          PC.dumpTrace howner (by rw [hpc]; rfl) hout
  | dumpTrace =>
      have howner : s.sigThread = some tid := hA tid (by rw [hpc]; rfl)
      have happly : sigStep reg signum s tid =
          { s with output := s.output ++ [(tid, Item.stackTrace true)]
                   pcs := Function.update s.pcs tid PC.dumpCallbacks } := by
        unfold sigStep
        rw [if_neg hterm, hpc]
      rw [happly]
      refine ⟨?_, ?_, ?_⟩
      · intro t ht
        have ht' : inDumpBody (Function.update s.pcs tid PC.dumpCallbacks t) = true :=
          ht
        show s.sigThread = some t
        by_cases htid : t = tid
        · subst htid
          exact howner
        · rw [Function.update_noteq htid] at ht'
          exact hA t ht'
      · intro t ht
        have ht' : s.sigThread = some t := ht
        show inDumpBody (Function.update s.pcs tid PC.dumpCallbacks t) = true
        rw [howner] at ht'
        injection ht' with he
        subst he
        rw [Function.update_same]
        rfl
      · exact outShape_emit reg signum s tid (Item.stackTrace true)
          PC.dumpCallbacks howner (by rw [hpc]; rfl) hout
  | dumpCallbacks =>
      have howner : s.sigThread = some tid := hA tid (by rw [hpc]; rfl)
      have happly : sigStep reg signum s tid =
          { s with output := s.output ++ [(tid, Item.callbacksRun reg.run)]
                   pcs := Function.update s.pcs tid PC.release } := by
        unfold sigStep
        rw [if_neg hterm, hpc]
      rw [happly]
      refine ⟨?_, ?_, ?_⟩
      · intro t ht
        have ht' : inDumpBody (Function.update s.pcs tid PC.release t) = true := ht
        show s.sigThread = some t
        by_cases htid : t = tid
        · subst htid
          exact howner
        · rw [Function.update_noteq htid] at ht'
          exact hA t ht'
      · intro t ht
        have ht' : s.sigThread = some t := ht
        show inDumpBody (Function.update s.pcs tid PC.release t) = true
        rw [howner] at ht'
        injection ht' with he
        subst he
        rw [Function.update_same]
        rfl
      · exact outShape_emit reg signum s tid (Item.callbacksRun reg.run)
          PC.release howner (by rw [hpc]; rfl) hout
  | release =>
      have howner : s.sigThread = some tid := hA tid (by rw [hpc]; rfl)
      have happly : sigStep reg signum s tid =
          { s with sigThread := none
                   pcs := Function.update s.pcs tid PC.reraise } := by
        unfold sigStep
        rw [if_neg hterm, hpc]
      rw [happly]
      refine ⟨?_, ?_, ?_⟩
      · intro t ht
        have ht' : inDumpBody (Function.update s.pcs tid PC.reraise t) = true := ht
        show (none : Option Nat) = some t
        by_cases htid : t = tid
        · subst htid
          rw [Function.update_same] at ht'
          exact Bool.noConfusion ht'
        · rw [Function.update_noteq htid] at ht'
          have he := hA t ht'
          rw [howner] at he
          injection he with he
          exact absurd he.symm htid
      · intro t ht
        have ht' : (none : Option Nat) = some t := ht
        exact Option.noConfusion ht'
      · obtain ⟨ts, houteq⟩ := hout
        rw [howner] at houteq
        have hout' : s.output =
            bodiesConcat reg signum ts ++ bodySoFar reg signum tid (s.pcs tid) :=
          houteq
        rw [hpc] at hout'
        refine ⟨ts ++ [tid], ?_⟩
        show s.output = bodiesConcat reg signum (ts ++ [tid]) ++ []
        rw [bodiesConcat_append, List.append_nil]
        exact hout'
  | reraise =>
      have happly : sigStep reg signum s tid =
          { s with terminated := true
                   pcs := Function.update s.pcs tid PC.done } := by
        unfold sigStep
        rw [if_neg hterm, hpc]
      rw [happly]
      refine ⟨?_, ?_, ?_⟩
      · intro t ht
        have ht' : inDumpBody (Function.update s.pcs tid PC.done t) = true := ht
        show s.sigThread = some t
        by_cases htid : t = tid
        · subst htid
          rw [Function.update_same] at ht'
          exact Bool.noConfusion ht'
        · rw [Function.update_noteq htid] at ht'
          exact hA t ht'
      · intro t ht
        have ht' : s.sigThread = some t := ht
        show inDumpBody (Function.update s.pcs tid PC.done t) = true
        have hd := hB t ht'
        have htid : t ≠ tid := by
          intro he
          rw [he, hpc] at hd
          exact Bool.noConfusion hd
        rw [Function.update_noteq htid]
        exact hd
      · refine outShape_congr reg signum s _ rfl rfl ?_ hout
        intro t htd
        have hd := hB t htd
        have htid : t ≠ tid := by
          intro he
          rw [he, hpc] at hd
          exact Bool.noConfusion hd
        exact Function.update_noteq htid _ _
  | done =>
      have happly : sigStep reg signum s tid = s := by
        unfold sigStep
        rw [if_neg hterm, hpc]
      rw [happly]
      exact ⟨hA, hB, hout⟩

/-- The invariant holds initially. -/
theorem sigInit_inv (reg : FatalSignalCallbackRegistry) (signum : Nat) :
    SigInv reg signum sigInit := by
  refine ⟨?_, ?_, ⟨[], rfl⟩⟩
  · intro t ht
    exact Bool.noConfusion ht
  · intro t ht
    exact Option.noConfusion ht

/-- The invariant holds after any schedule. -/
theorem sigRun_inv (reg : FatalSignalCallbackRegistry) (signum : Nat)
    (sched : List Nat) : SigInv reg signum (sigRun reg signum sched) := by
  suffices h : ∀ s, SigInv reg signum s →
      SigInv reg signum (sched.foldl (sigStep reg signum) s) from
    h sigInit (sigInit_inv reg signum)
  induction sched with
  | nil => exact fun s hs => hs
  | cons tid rest ih => exact fun s hs => ih _ (sigStep_inv reg signum s tid hs)

/-- C1 counterexample: two threads, both raising the same fatal signal once
after installation.  Thread 0 wins the claim, dumps a full body and stores
`kInvalidThreadId` back into `gSignalThread`; before thread 0's re-raise
terminates the process, thread 1 — still retrying the compare-exchange —
wins the freed slot and dumps a second complete body, and its re-raise then
terminates the process.  The final stream holds two complete report bodies,
refuting "the output stream contains exactly one well-formed report body". -/
theorem c1_counterexample :
    (sigRun ⟨false, []⟩ 11 [0, 0, 0, 0, 0, 0, 0, 1, 1, 1, 1, 1, 1, 1, 1]).terminated
      = true ∧
    (sigRun ⟨false, []⟩ 11 [0, 0, 0, 0, 0, 0, 0, 1, 1, 1, 1, 1, 1, 1, 1]).output =
      fullBody ⟨false, []⟩ 11 0 ++ fullBody ⟨false, []⟩ 11 1 ∧
    (∀ t : Nat,
      (sigRun ⟨false, []⟩ 11 [0, 0, 0, 0, 0, 0, 0, 1, 1, 1, 1, 1, 1, 1, 1]).output ≠
        fullBody ⟨false, []⟩ 11 t) := by
  refine ⟨by decide, by decide, ?_⟩
  intro t h
  rw [show (sigRun ⟨false, []⟩ 11
        [0, 0, 0, 0, 0, 0, 0, 1, 1, 1, 1, 1, 1, 1, 1]).output =
      fullBody ⟨false, []⟩ 11 0 ++ fullBody ⟨false, []⟩ 11 1 from by decide] at h
  have hlen := congrArg List.length h
  simp [fullBody] at hlen

/-- C1 (amended): for every set of threads concurrently raising the same
fatal signal after the handler is installed and every interleaving, at most
one thread executes the dump body (timestamp, signal info, stack trace,
callbacks) at any time, and the output stream is a concatenation of
well-formed, non-interleaved report bodies (each a contiguous block written
by a single thread), followed only by the prefix the current claim holder
has flushed so far.  (The original "exactly one report body" fails: the
claim slot is released before the re-raise terminates the process, so a
retrying thread can produce a second complete body — see the
counterexample.) -/
theorem c1_dump_serialization (reg : FatalSignalCallbackRegistry)
    (signum : Nat) (sched : List Nat) :
    (∀ t1 t2, inDumpBody ((sigRun reg signum sched).pcs t1) = true →
      inDumpBody ((sigRun reg signum sched).pcs t2) = true → t1 = t2) ∧
    outShape reg signum (sigRun reg signum sched) := by
  obtain ⟨hA, hB, hout⟩ := sigRun_inv reg signum sched
  refine ⟨?_, hout⟩
  intro t1 t2 h1 h2
  have e1 := hA t1 h1
  have e2 := hA t2 h2
  rw [e1] at e2
  injection e2

/-- Witness for C1 (amended) on a concrete two-step schedule. -/
theorem c1_witness :
    (∀ t1 t2, inDumpBody ((sigRun ⟨false, []⟩ 11 [0, 0]).pcs t1) = true →
      inDumpBody ((sigRun ⟨false, []⟩ 11 [0, 0]).pcs t2) = true → t1 = t2) ∧
    outShape ⟨false, []⟩ 11 (sigRun ⟨false, []⟩ 11 [0, 0]) :=
  c1_dump_serialization ⟨false, []⟩ 11 [0, 0]

/-! ### Callbacks run only when the registry was installed (C10) -/

/-- Registering callbacks on an unfrozen registry appends them in order. -/
theorem registerAll_unfrozen (cbs : List Nat) (r : FatalSignalCallbackRegistry)
    (h : r.installed = false) :
    FatalSignalCallbackRegistry.registerAll cbs r =
      some { installed := false, handlers := r.handlers ++ cbs } := by
  induction cbs generalizing r with
  | nil =>
      show some r = some { installed := false, handlers := r.handlers ++ [] }
      rw [List.append_nil, ← h]
  | cons cb cbs ih =>
      have hadd : r.add cb =
          some { installed := false, handlers := r.handlers ++ [cb] } := by
        unfold FatalSignalCallbackRegistry.add
        rw [h]
        simp
      show (match r.add cb with
            | none => none
            | some r' => FatalSignalCallbackRegistry.registerAll cbs r') =
        some { installed := false, handlers := r.handlers ++ cb :: cbs }
      rw [hadd]
      show FatalSignalCallbackRegistry.registerAll cbs
          { installed := false, handlers := r.handlers ++ [cb] } =
        some { installed := false, handlers := r.handlers ++ cb :: cbs }
      rw [ih { installed := false, handlers := r.handlers ++ [cb] } rfl]
      rw [List.append_assoc]
      rfl

/-- The only `callbacksRun` line inside a full body is the one produced by
`FatalSignalCallbackRegistry::run`. -/
theorem callbacksRun_eq_of_mem_fullBody (reg : FatalSignalCallbackRegistry)
    (signum t tb : Nat) (ran : List Nat)
    (h : (tb, Item.callbacksRun ran) ∈ fullBody reg signum t) :
    ran = reg.run := by
  simp only [fullBody, List.mem_cons, List.not_mem_nil, or_false] at h
  rcases h with h | h | h | h
  · exact absurd (congrArg Prod.snd h) (by simp)
  · exact absurd (congrArg Prod.snd h) (by simp)
  · exact absurd (congrArg Prod.snd h) (by simp)
  · have h2 := congrArg Prod.snd h
    simp only [] at h2
    injection h2

/-- Same, across a concatenation of bodies. -/
theorem callbacksRun_eq_of_mem_bodiesConcat (reg : FatalSignalCallbackRegistry)
    (signum tb : Nat) (ran : List Nat) (ts : List Nat)
    (h : (tb, Item.callbacksRun ran) ∈ bodiesConcat reg signum ts) :
    ran = reg.run := by
  induction ts with
  | nil => exact absurd h (List.not_mem_nil _)
  | cons t ts ih =>
      have h' : (tb, Item.callbacksRun ran) ∈
          fullBody reg signum t ++ bodiesConcat reg signum ts := h
      rcases List.mem_append.mp h' with h1 | h2
      · exact callbacksRun_eq_of_mem_fullBody reg signum t tb ran h1
      · exact ih h2

/-- Same, for a body prefix in progress. -/
theorem callbacksRun_eq_of_mem_bodySoFar (reg : FatalSignalCallbackRegistry)
    (signum t tb : Nat) (ran : List Nat) (pc : PC)
    (h : (tb, Item.callbacksRun ran) ∈ bodySoFar reg signum t pc) :
    ran = reg.run := by
  cases pc with
  | start => exact absurd h (List.not_mem_nil _)
  | claiming => exact absurd h (List.not_mem_nil _)
  | dumpTime => exact absurd h (List.not_mem_nil _)
  | dumpInfo =>
      have h' : (tb, Item.callbacksRun ran) ∈ [(t, Item.timestampLine)] := h
      simp only [List.mem_cons, List.not_mem_nil, or_false] at h'
      exact absurd (congrArg Prod.snd h') (by simp)
  | dumpTrace =>
      have h' : (tb, Item.callbacksRun ran) ∈
          [(t, Item.timestampLine), (t, Item.signalInfoLine signum)] := h
      simp only [List.mem_cons, List.not_mem_nil, or_false] at h'
      rcases h' with h' | h'
      · exact absurd (congrArg Prod.snd h') (by simp)
      · exact absurd (congrArg Prod.snd h') (by simp)
  | dumpCallbacks =>
      have h' : (tb, Item.callbacksRun ran) ∈
          [(t, Item.timestampLine), (t, Item.signalInfoLine signum),
           (t, Item.stackTrace true)] := h
      simp only [List.mem_cons, List.not_mem_nil, or_false] at h'
      rcases h' with h' | h' | h'
      · exact absurd (congrArg Prod.snd h') (by simp)
      · exact absurd (congrArg Prod.snd h') (by simp)
      · exact absurd (congrArg Prod.snd h') (by simp)
  | release => exact callbacksRun_eq_of_mem_fullBody reg signum t tb ran h
  | reraise => exact absurd h (List.not_mem_nil _)
  | done => exact absurd h (List.not_mem_nil _)

/-- Every `callbacksRun` line ever flushed carries exactly the callbacks the
registry's `run` produces. -/
theorem callbacksRun_eq_of_mem_output (reg : FatalSignalCallbackRegistry)
    (signum : Nat) (sched : List Nat) (tb : Nat) (ran : List Nat)
    (h : (tb, Item.callbacksRun ran) ∈ (sigRun reg signum sched).output) :
    ran = reg.run := by
  obtain ⟨-, -, ts, hout⟩ := sigRun_inv reg signum sched
  rw [hout] at h
  rcases List.mem_append.mp h with h1 | h2
  · exact callbacksRun_eq_of_mem_bodiesConcat reg signum tb ran ts h1
  · rcases hsig : (sigRun reg signum sched).sigThread with _ | t
    · rw [hsig] at h2
      exact absurd h2 (List.not_mem_nil _)
    · rw [hsig] at h2
      exact callbacksRun_eq_of_mem_bodySoFar reg signum t tb ran _ h2

/-- C10: callbacks registered through `addFatalSignalCallback` but never
frozen by `installFatalSignalCallbacks` are silently skipped by the callback
stage of a dump: `run` returns the registered callbacks exactly when the
registry was marked installed (in registration order), and the callback
stage of any dump executes exactly `run`'s list. -/
theorem c10_callbacks_only_when_installed (cbs : List Nat)
    (r : FatalSignalCallbackRegistry)
    (h : FatalSignalCallbackRegistry.registerAll cbs
        FatalSignalCallbackRegistry.initial = some r) :
    r.handlers = cbs ∧
    r.run = [] ∧
    (∀ r', r.markInstalled = some r' → r'.run = cbs) ∧
    (∀ (reg : FatalSignalCallbackRegistry) (signum : Nat) (sched : List Nat)
        (tb : Nat) (ran : List Nat),
        (tb, Item.callbacksRun ran) ∈ (sigRun reg signum sched).output →
        ran = reg.run) := by
  rw [registerAll_unfrozen cbs FatalSignalCallbackRegistry.initial rfl] at h
  injection h with h
  subst h
  refine ⟨rfl, rfl, ?_, ?_⟩
  · intro r' hr'
    have hr2 : some ({ installed := true, handlers := [] ++ cbs } :
        FatalSignalCallbackRegistry) = some r' := hr'
    injection hr2 with hr2
    subst hr2
    rfl
  · intro reg signum sched tb ran
    exact callbacksRun_eq_of_mem_output reg signum sched tb ran

/-- Witness for C10 on two concrete callbacks. -/
theorem c10_witness :
    ({ installed := false, handlers := [] ++ [5, 6] } :
        FatalSignalCallbackRegistry).handlers = [5, 6] ∧
    ({ installed := false, handlers := [] ++ [5, 6] } :
        FatalSignalCallbackRegistry).run = [] ∧
    (∀ r', ({ installed := false, handlers := [] ++ [5, 6] } :
        FatalSignalCallbackRegistry).markInstalled = some r' →
      r'.run = [5, 6]) ∧
    (∀ (reg : FatalSignalCallbackRegistry) (signum : Nat) (sched : List Nat)
        (tb : Nat) (ran : List Nat),
        (tb, Item.callbacksRun ran) ∈ (sigRun reg signum sched).output →
        ran = reg.run) :=
  c10_callbacks_only_when_installed [5, 6]
    { installed := false, handlers := [] ++ [5, 6] } (by decide)

/-- Witness for C2: one recursive fault with a successful capture, then a
second that is dropped. -/
theorem c2_witness :
    recRun [true, false] { inRecursive := false, out := [] } =
      { inRecursive := true,
        out := TraceItem.recursionWarning :: dumpStackTrace true false } :=
  c2_recursion_one_shot.1 true [false]

/-- Witness for C3 at SIGSEGV (11). -/
theorem c3_witness :
    signalHandlerCompletion 11 =
      [SigAction.releaseClaim,
       SigAction.installDisposition 11 (Disposition.saved 11),
       SigAction.raiseSignal 11] := by
  rw [c3_completion_restores_and_reraises 11]
  decide

end Symbolizer

end Folly
